import Mathlib

/-!
Shallow embedding of the heartbeat-availability replication coordinator
(`HAF.py`, `HAFwithGUI.py`, `HAFwithGUITesting.py`).

Node ids are strings, availability scores and timestamps are rationals.
Python dicts are modelled as insertion-ordered association lists:
assigning to an existing key updates the value in place (keeping the
key's original position, as CPython dicts do), assigning a fresh key
appends it at the end.  Python's `sorted(..., key=lambda x: x[1],
reverse=True)` is modelled by a stable insertion sort in descending
score order.  Python float truthiness of the optional
`last_assignment_time` (None and 0.0 are falsy) is modelled explicitly.
-/

abbrev NodeId := String

abbrev Score := ℚ

abbrev Time := ℚ

/-- Membership test `k in d` on a Python dict. -/
def hasKey {α : Type} (d : List (NodeId × α)) (k : NodeId) : Bool :=
  d.any (fun p => p.1 == k)

/-- Lookup `d[k]` on a Python dict, `none` when the key is absent. -/
def dictGet {α : Type} (d : List (NodeId × α)) (k : NodeId) : Option α :=
  (d.find? (fun p => p.1 == k)).map (fun p => p.2)

/-- Assignment `d[k] = v` on a Python dict: an existing key keeps its
position and gets the new value, a fresh key is appended at the end. -/
def dictSet {α : Type} (d : List (NodeId × α)) (k : NodeId) (v : α) : List (NodeId × α) :=
  if d.any (fun p => p.1 == k) then
    d.map (fun p => if p.1 == k then (p.1, v) else p)
  else
    d ++ [(k, v)]

/-- One step of the stable descending insertion sort: `p` is placed
before the first element whose score is `≤ p.2`, so among equal scores
the earlier element stays first, exactly as Python's stable
`sorted(..., reverse=True)` behaves. -/
def insertDesc (p : NodeId × Score) : List (NodeId × Score) → List (NodeId × Score)
  | [] => [p]
  | q :: qs => if q.2 ≤ p.2 then p :: q :: qs else q :: insertDesc p qs

/-- `sorted(node_scores.items(), key=lambda x: x[1], reverse=True)`:
stable sort of the dict items by score, descending. -/
def sortedDesc : List (NodeId × Score) → List (NodeId × Score)
  | [] => []
  | p :: ps => insertDesc p (sortedDesc ps)

/-- `sorted_nodes[:replication_factor]`: the top slice of the sorted
items, silently truncated when the factor exceeds the list length. -/
def selectTargets (node_scores : List (NodeId × Score)) (replication_factor : ℕ) :
    List (NodeId × Score) :=
  (sortedDesc node_scores).take replication_factor

/-- State of one `Node` thread as far as replication is concerned. -/
structure NodeState where
  node_id : NodeId
  running : Bool
  replicated_memory : Option String
deriving DecidableEq

/-- `Node.receive_replication`: overwrite the single replicated-memory
slot with the payload. -/
def receive_replication (n : NodeState) (memory : String) : NodeState :=
  { n with replicated_memory := some memory }

/-- The mutable state of `Coordinator` (HAFwithGUITesting.py). -/
structure CoordinatorState where
  node_scores : List (NodeId × Score)
  replication_factor : ℕ
  num_nodes : ℕ
  running : Bool
  node_threads : List (NodeId × NodeState)
  memory_state : String
  total_heartbeats : ℕ
  replication_count : List (NodeId × ℕ)
  latency_log : List Time
  execution_times : List Time
  last_assignment_time : Option Time
  assignments_done : ℕ
deriving DecidableEq

/-- `Coordinator.__init__`: fields are set unconditionally — the
constructor performs no validation of the configuration. -/
def initCoordinator (num_nodes : ℕ) (node_threads : List (NodeId × NodeState))
    (replication_factor : ℕ) : CoordinatorState :=
  { node_scores := []
    replication_factor := replication_factor
    num_nodes := num_nodes
    running := true
    node_threads := node_threads
    memory_state := "Replication Data"
    total_heartbeats := 0
    replication_count := node_threads.map (fun p => (p.1, 0))
    latency_log := []
    execution_times := []
    last_assignment_time := none
    assignments_done := 0 }

/-- Python truthiness of the optional float `last_assignment_time`:
`None` and `0.0` are falsy, every other float is truthy. -/
def pyTruthy : Option Time → Bool
  | none => false
  | some t => t != 0

/-- The `targets` list built inside `assign_replication_task`. -/
def assignTargets (s : CoordinatorState) : List NodeId :=
  (selectTargets s.node_scores s.replication_factor).map Prod.fst

/-- The delivery loop of `assign_replication_task`: for each target
that is a known node thread, hand it the payload and increment its
replication count; unknown targets are skipped. -/
def deliver (memory : String) :
    List NodeId → List (NodeId × NodeState) × List (NodeId × ℕ) →
      List (NodeId × NodeState) × List (NodeId × ℕ)
  | [], st => st
  | nid :: rest, (threads, counts) =>
    if threads.any (fun p => p.1 == nid) then
      deliver memory rest
        (threads.map (fun p => if p.1 == nid then (p.1, receive_replication p.2 memory) else p),
         counts.map (fun p => if p.1 == nid then (p.1, p.2 + 1) else p))
    else
      deliver memory rest (threads, counts)

/-- `Coordinator.assign_replication_task` at wall-clock time `now`:
record the inter-assignment interval when the previous timestamp is
truthy, remember `now`, select the top-scoring nodes, deliver the
payload, and count the assignment. -/
def assign_replication_task (s : CoordinatorState) (now : Time) : CoordinatorState :=
  let execution_times :=
    if pyTruthy s.last_assignment_time then
      s.execution_times ++ [now - s.last_assignment_time.getD 0]
    else
      s.execution_times
  let dc := deliver s.memory_state (assignTargets s) (s.node_threads, s.replication_count)
  { s with
    execution_times := execution_times
    last_assignment_time := some now
    node_threads := dc.1
    replication_count := dc.2
    assignments_done := s.assignments_done + 1 }

/-- The body of the `Coordinator.run` loop for one received heartbeat
`(node_id, score, sent_time)` at wall-clock time `now`: store the
latest score, count the heartbeat, log the latency when it is under the
10-unit ceiling, and fire an assignment when the round is complete. -/
def processHeartbeat (s : CoordinatorState) (node_id : NodeId) (score : Score)
    (sent_time now : Time) : CoordinatorState :=
  let s1 := { s with
    node_scores := dictSet s.node_scores node_id score
    total_heartbeats := s.total_heartbeats + 1 }
  let latency := now - sent_time
  let s2 := if latency < 10 then { s1 with latency_log := s1.latency_log ++ [latency] } else s1
  if s2.node_scores.length = s2.num_nodes then assign_replication_task s2 now else s2

/-- One heartbeat as consumed by the coordinator: the tuple from the
queue together with the wall-clock time of its receipt. -/
structure Heartbeat where
  node_id : NodeId
  score : Score
  sent_time : Time
  recv_time : Time

/-- The coordinator's aggregation loop applied to a finite sequence of
received heartbeats. -/
def runTrace (s : CoordinatorState) (trace : List Heartbeat) : CoordinatorState :=
  trace.foldl (fun st hb => processHeartbeat st hb.node_id hb.score hb.sent_time hb.recv_time) s

/-- Outcome of a Python expression that may raise ZeroDivisionError. -/
inductive PyOutcome (α : Type) where
  | ok : α → PyOutcome α
  | zeroDivisionError : PyOutcome α
deriving DecidableEq

/-- The throughput computation of `Coordinator.report_metrics`: the
guard `if self.execution_times:` only tests non-emptiness, so a
non-empty interval list summing to zero reaches the division and
raises ZeroDivisionError; an empty list skips the line (no data). -/
def throughput (s : CoordinatorState) : PyOutcome (Option ℚ) :=
  if s.execution_times.isEmpty then
    PyOutcome.ok none
  else if s.execution_times.sum = 0 then
    PyOutcome.zeroDivisionError
  else
    PyOutcome.ok (some ((s.assignments_done : ℚ) / s.execution_times.sum))

/-! ### Lemmas about the stable descending sort -/

theorem insertDesc_length (p : NodeId × Score) (l : List (NodeId × Score)) :
    (insertDesc p l).length = l.length + 1 := by
  induction l with
  | nil => rfl
  | cons q qs ih =>
    by_cases h : q.2 ≤ p.2 <;> simp [insertDesc, h, ih]

theorem sortedDesc_length (l : List (NodeId × Score)) :
    (sortedDesc l).length = l.length := by
  induction l with
  | nil => rfl
  | cons p ps ih => simp [sortedDesc, insertDesc_length, ih]

theorem mem_insertDesc {q p : NodeId × Score} {l : List (NodeId × Score)} :
    q ∈ insertDesc p l ↔ q = p ∨ q ∈ l := by
  induction l with
  | nil => simp [insertDesc]
  | cons r rs ih =>
    by_cases h : r.2 ≤ p.2
    · simp [insertDesc, h]
    · simp [insertDesc, h, ih]
      tauto

theorem insertDesc_pairwise {p : NodeId × Score} {l : List (NodeId × Score)}
    (hl : l.Pairwise (fun a b => b.2 ≤ a.2)) :
    (insertDesc p l).Pairwise (fun a b => b.2 ≤ a.2) := by
  induction l with
  | nil => simp [insertDesc]
  | cons q qs ih =>
    rcases List.pairwise_cons.mp hl with ⟨hq, hqs⟩
    by_cases h : q.2 ≤ p.2
    · rw [insertDesc, if_pos h]
      refine List.pairwise_cons.mpr ⟨?_, hl⟩
      intro x hx
      rcases List.mem_cons.mp hx with rfl | hx2
      · exact h
      · exact le_trans (hq x hx2) h
    · rw [insertDesc, if_neg h]
      refine List.pairwise_cons.mpr ⟨?_, ih hqs⟩
      intro x hx
      rcases mem_insertDesc.mp hx with rfl | hx2
      · exact le_of_not_le h
      · exact hq x hx2

theorem sortedDesc_pairwise (l : List (NodeId × Score)) :
    (sortedDesc l).Pairwise (fun a b => b.2 ≤ a.2) := by
  induction l with
  | nil => simp [sortedDesc]
  | cons p ps ih => exact insertDesc_pairwise ih

/-- Claim C1: on a completed round (one score per known node) with a
valid replication factor, `assign_replication_task` selects exactly
`replication_factor` targets, and the selected `(node, score)` pairs
are in descending score order (each adjacent pair included). -/
theorem claim1_completed_round_targets (s : CoordinatorState)
    (hcomplete : s.node_scores.length = s.num_nodes)
    (hrf : s.replication_factor ≤ s.num_nodes) :
    (assignTargets s).length = s.replication_factor ∧
    (selectTargets s.node_scores s.replication_factor).length = s.replication_factor ∧
    (selectTargets s.node_scores s.replication_factor).Pairwise (fun a b => b.2 ≤ a.2) := by
  have hlen : (selectTargets s.node_scores s.replication_factor).length = s.replication_factor := by
    simp only [selectTargets, List.length_take, sortedDesc_length, hcomplete]
    omega
  refine ⟨?_, hlen, ?_⟩
  · simp [assignTargets, hlen]
  · exact (sortedDesc_pairwise s.node_scores).sublist
      (List.take_sublist s.replication_factor (sortedDesc s.node_scores))

/-- Witness for C1 at the spec's Scenario A: four nodes with scores
A:0.9, B:0.7, C:0.95, D:0.4 and replication factor 2. -/
theorem claim1_witness :
    (let s : CoordinatorState :=
      { initCoordinator 4 [] 2 with
        node_scores := [("A", 9/10), ("B", 7/10), ("C", 19/20), ("D", 2/5)] }
    s.node_scores.length = s.num_nodes ∧ s.replication_factor ≤ s.num_nodes ∧
      ((assignTargets s).length = s.replication_factor ∧
       (selectTargets s.node_scores s.replication_factor).length = s.replication_factor ∧
       (selectTargets s.node_scores s.replication_factor).Pairwise (fun a b => b.2 ≤ a.2))) :=
  ⟨by decide, by decide, claim1_completed_round_targets _ (by decide) (by decide)⟩

/-- Claim C9: target selection is total and silently truncates — for
every scores list and every replication factor the targets list has
length `min replication_factor |scores|`. -/
theorem claim9_selection_truncates (node_scores : List (NodeId × Score))
    (replication_factor : ℕ) :
    ((selectTargets node_scores replication_factor).map Prod.fst).length =
      min replication_factor node_scores.length := by
  simp [selectTargets, List.length_take, sortedDesc_length]

/-! ### Lemmas about the dict model -/

theorem hasKey_iff_mem_keys {α : Type} (d : List (NodeId × α)) (k : NodeId) :
    hasKey d k = true ↔ k ∈ d.map Prod.fst := by
  simp [hasKey, List.any_eq_true, List.mem_map]

theorem find?_map_fst_preserving {α : Type} (f : NodeId × α → NodeId × α)
    (hf : ∀ p, (f p).1 = p.1) (d : List (NodeId × α)) (k : NodeId) :
    (d.map f).find? (fun p => p.1 == k) = (d.find? (fun p => p.1 == k)).map f := by
  induction d with
  | nil => rfl
  | cons p ps ih =>
    rw [List.map_cons]
    by_cases hp : (p.1 == k) = true
    · have hfp : ((f p).1 == k) = true := by rw [hf]; exact hp
      rw [@List.find?_cons_of_pos _ (fun q => q.1 == k) (f p) (ps.map f) hfp,
        @List.find?_cons_of_pos _ (fun q => q.1 == k) p ps hp, Option.map_some']
    · have hfp : ¬ ((f p).1 == k) = true := by rw [hf]; exact hp
      rw [@List.find?_cons_of_neg _ (fun q => q.1 == k) (f p) (ps.map f) hfp,
        @List.find?_cons_of_neg _ (fun q => q.1 == k) p ps hp, ih]

theorem hasKey_map_fst_preserving {α : Type} (f : NodeId × α → NodeId × α)
    (hf : ∀ p, (f p).1 = p.1) (d : List (NodeId × α)) (k : NodeId) :
    hasKey (d.map f) k = hasKey d k := by
  induction d with
  | nil => rfl
  | cons p ps ih =>
    simp only [hasKey, List.map_cons, List.any_cons] at ih ⊢
    rw [hf, ih]

theorem dictSet_length_of_hasKey {α : Type} {d : List (NodeId × α)} {k : NodeId} (v : α)
    (h : hasKey d k = true) : (dictSet d k v).length = d.length := by
  have h2 : (d.any fun p => p.1 == k) = true := h
  unfold dictSet
  rw [if_pos h2, List.length_map]

theorem dictGet_dictSet_self {α : Type} (d : List (NodeId × α)) (k : NodeId) (v : α) :
    dictGet (dictSet d k v) k = some v := by
  unfold dictGet dictSet
  by_cases h : d.any (fun p => p.1 == k)
  · rw [if_pos h]
    rw [find?_map_fst_preserving (fun p => if p.1 == k then (p.1, v) else p)
      (fun p => by by_cases hp : (p.1 == k) = true <;> simp [hp]) d k]
    rcases Option.isSome_iff_exists.mp (List.find?_isSome.mpr (List.any_eq_true.mp h))
      with ⟨p, hp⟩
    have hpk := List.find?_some hp
    simp only [hp, Option.map_some']
    simp [hpk]
  · rw [if_neg h]
    have hnone : d.find? (fun p => p.1 == k) = none := by
      rw [List.find?_eq_none]
      intro x hx hxk
      exact h (List.any_eq_true.mpr ⟨x, hx, hxk⟩)
    rw [List.find?_append, hnone]
    simp

/-- Claim C2: the round-completion test is cardinality equality (with
no-duplicate keys it holds exactly when every known node id has an
entry), and a duplicate heartbeat from an already-reported node before
completion only overwrites that node's score: the scores map keeps its
size, the overwritten entry holds the most recent value, the round
stays incomplete, and no assignment fires. -/
theorem claim2_duplicate_heartbeat (s : CoordinatorState) (node_ids : List NodeId)
    (nid : NodeId) (score : Score) (sent_time now : Time)
    (hdup : hasKey s.node_scores nid = true)
    (hincomplete : s.node_scores.length ≠ s.num_nodes) :
    (processHeartbeat s nid score sent_time now).node_scores.length =
        s.node_scores.length ∧
    dictGet (processHeartbeat s nid score sent_time now).node_scores nid = some score ∧
    (processHeartbeat s nid score sent_time now).assignments_done = s.assignments_done ∧
    (node_ids.Nodup → (s.node_scores.map Prod.fst).Nodup →
      (∀ k, hasKey s.node_scores k = true → k ∈ node_ids) →
      node_ids.length = s.num_nodes →
      (s.node_scores.length = s.num_nodes ↔
        ∀ k ∈ node_ids, hasKey s.node_scores k = true)) := by
  have hlen : (dictSet s.node_scores nid score).length = s.node_scores.length :=
    dictSet_length_of_hasKey score hdup
  refine ⟨?_, ?_, ?_, ?_⟩
  · unfold processHeartbeat
    by_cases hlat : now - sent_time < 10 <;> simp [hlat, hlen, hincomplete]
  · unfold processHeartbeat
    by_cases hlat : now - sent_time < 10 <;>
      simp [hlat, hlen, hincomplete, dictGet_dictSet_self]
  · unfold processHeartbeat
    by_cases hlat : now - sent_time < 10 <;> simp [hlat, hlen, hincomplete]
  · intro hids hkeys hsub hlenids
    have hkeys_len : (s.node_scores.map Prod.fst).length = s.node_scores.length :=
      List.length_map _ _
    have hsub2 : s.node_scores.map Prod.fst ⊆ node_ids := fun x hx =>
      hsub x ((hasKey_iff_mem_keys s.node_scores x).mpr hx)
    have hsp : (s.node_scores.map Prod.fst).Subperm node_ids :=
      List.subperm_of_subset hkeys hsub2
    constructor
    · intro hcard k hk
      have hperm : (s.node_scores.map Prod.fst).Perm node_ids :=
        hsp.perm_of_length_le (by omega)
      exact (hasKey_iff_mem_keys s.node_scores k).mpr (hperm.symm.subset hk)
    · intro hall
      have hsub3 : node_ids ⊆ s.node_scores.map Prod.fst := fun x hx =>
        (hasKey_iff_mem_keys s.node_scores x).mp (hall x hx)
      have hsp2 : node_ids.Subperm (s.node_scores.map Prod.fst) :=
        List.subperm_of_subset hids hsub3
      have h1 := hsp.length_le
      have h2 := hsp2.length_le
      omega

/-- Witness for C2 (the spec's Scenario C shape): two known nodes A
and B, only A has reported (score 0.3), a duplicate heartbeat from A
with score 0.6 arrives — the map stays at one entry holding 0.6, the
round stays incomplete with no assignment, and completion would hold
exactly when both A and B have entries. -/
theorem claim2_witness :
    (let s : CoordinatorState :=
      { initCoordinator 2 [] 2 with node_scores := [("A", 3/10)] }
    hasKey s.node_scores "A" = true ∧ s.node_scores.length ≠ s.num_nodes ∧
      ((processHeartbeat s "A" (6/10) 0 1).node_scores.length = s.node_scores.length ∧
       dictGet (processHeartbeat s "A" (6/10) 0 1).node_scores "A" = some (6/10) ∧
       (processHeartbeat s "A" (6/10) 0 1).assignments_done = s.assignments_done ∧
       (["A", "B"].Nodup → (s.node_scores.map Prod.fst).Nodup →
         (∀ k, hasKey s.node_scores k = true → k ∈ ["A", "B"]) →
         (["A", "B"] : List NodeId).length = s.num_nodes →
         (s.node_scores.length = s.num_nodes ↔
           ∀ k ∈ (["A", "B"] : List NodeId), hasKey s.node_scores k = true)))) :=
  ⟨by decide, by decide,
    claim2_duplicate_heartbeat _ ["A", "B"] "A" (6/10) 0 1 (by decide) (by decide)⟩

/-- Counterexample to C3: with equal scores 0.5 for A and B but B
recorded first, Python's stable sort keeps B ahead of A, so with
replication factor 1 the targets list is [B], not [A] — the tie is
not broken by ascending node id regardless of recording order. -/
theorem claim3_counterexample :
    assignTargets
        { initCoordinator 2 [] 1 with
          node_scores := dictSet (dictSet [] "B" (1/2)) "A" (1/2) } = ["B"] ∧
    (["B"] : List NodeId) ≠ ["A"] := by
  constructor
  · norm_num [assignTargets, selectTargets, sortedDesc, insertDesc, dictSet, initCoordinator]
  · decide

/-- C3 as amended: with equal scores, the stable sort preserves the
scores dict's insertion order, so the tie goes to whichever node was
recorded first — recording A then B yields targets [A], recording B
then A yields targets [B] (replication factor 1, both scores 0.5). -/
theorem claim3_tie_break_insertion_order :
    assignTargets
        { initCoordinator 2 [] 1 with
          node_scores := dictSet (dictSet [] "A" (1/2)) "B" (1/2) } = ["A"] ∧
    assignTargets
        { initCoordinator 2 [] 1 with
          node_scores := dictSet (dictSet [] "B" (1/2)) "A" (1/2) } = ["B"] := by
  constructor
  · norm_num [assignTargets, selectTargets, sortedDesc, insertDesc, dictSet, initCoordinator]
  · norm_num [assignTargets, selectTargets, sortedDesc, insertDesc, dictSet, initCoordinator]

/-- Counterexample to C4: `Coordinator.__init__` performs no
configuration validation.  With 2 known nodes and replication factor 5
the coordinator is constructed normally (`running` is true, the factor
is stored as given), its aggregation loop consumes heartbeats, and on
round completion an assignment fires — nothing is rejected before or
during startup. -/
theorem claim4_counterexample :
    (initCoordinator 2 [("A", ⟨"A", true, none⟩), ("B", ⟨"B", true, none⟩)] 5).running =
        true ∧
    (initCoordinator 2 [("A", ⟨"A", true, none⟩), ("B", ⟨"B", true, none⟩)] 5).replication_factor = 5 ∧
    (runTrace (initCoordinator 2 [("A", ⟨"A", true, none⟩), ("B", ⟨"B", true, none⟩)] 5)
        [⟨"A", 9/10, 0, 1⟩, ⟨"B", 8/10, 1, 2⟩]).assignments_done = 1 := by
  refine ⟨rfl, rfl, ?_⟩
  norm_num [runTrace, processHeartbeat, assign_replication_task, assignTargets, selectTargets,
    sortedDesc, insertDesc, dictSet, initCoordinator, pyTruthy, deliver, receive_replication]
  decide

/-- C4 as amended: an invalid configuration (replication factor
exceeding the node count) is accepted unchanged by the constructor —
the coordinator starts in the running state with no error — and a
subsequent assignment executes normally instead of failing. -/
theorem claim4_no_validation (num_nodes replication_factor : ℕ)
    (node_threads : List (NodeId × NodeState)) (now : Time)
    (hviol : num_nodes < replication_factor) :
    (initCoordinator num_nodes node_threads replication_factor).running = true ∧
    (initCoordinator num_nodes node_threads replication_factor).replication_factor =
        replication_factor ∧
    (assign_replication_task (initCoordinator num_nodes node_threads replication_factor)
        now).assignments_done = 1 := by
  refine ⟨rfl, rfl, ?_⟩
  simp [assign_replication_task, initCoordinator]

/-- Witness for the amended C4 at node count 2, replication factor 5. -/
theorem claim4_witness :
    (2 : ℕ) < 5 ∧
      ((initCoordinator 2 [] 5).running = true ∧
       (initCoordinator 2 [] 5).replication_factor = 5 ∧
       (assign_replication_task (initCoordinator 2 [] 5) 3).assignments_done = 1) :=
  ⟨by decide, claim4_no_validation 2 5 [] 3 (by decide)⟩

/-! ### Per-field behavior of the coordinator's step functions -/

theorem assign_latency_log (s : CoordinatorState) (now : Time) :
    (assign_replication_task s now).latency_log = s.latency_log := rfl

theorem assign_total_heartbeats (s : CoordinatorState) (now : Time) :
    (assign_replication_task s now).total_heartbeats = s.total_heartbeats := rfl

theorem assign_assignments_done (s : CoordinatorState) (now : Time) :
    (assign_replication_task s now).assignments_done = s.assignments_done + 1 := rfl

theorem assign_last_time (s : CoordinatorState) (now : Time) :
    (assign_replication_task s now).last_assignment_time = some now := rfl

theorem assign_execution_times (s : CoordinatorState) (now : Time) :
    (assign_replication_task s now).execution_times =
      if pyTruthy s.last_assignment_time then
        s.execution_times ++ [now - s.last_assignment_time.getD 0]
      else
        s.execution_times := rfl

theorem processHeartbeat_latency_log (s : CoordinatorState) (node_id : NodeId)
    (score : Score) (sent_time now : Time) :
    (processHeartbeat s node_id score sent_time now).latency_log =
      if now - sent_time < 10 then s.latency_log ++ [now - sent_time]
      else s.latency_log := by
  unfold processHeartbeat
  by_cases hlat : now - sent_time < 10 <;>
    simp only [hlat, if_true, if_false, reduceIte] <;>
    split <;>
    simp [assign_latency_log]

theorem processHeartbeat_total_heartbeats (s : CoordinatorState) (node_id : NodeId)
    (score : Score) (sent_time now : Time) :
    (processHeartbeat s node_id score sent_time now).total_heartbeats =
      s.total_heartbeats + 1 := by
  unfold processHeartbeat
  by_cases hlat : now - sent_time < 10 <;>
    simp only [hlat, if_true, if_false, reduceIte] <;>
    split <;>
    simp [assign_total_heartbeats]

/-- Claim C5: starting from a state whose latency log already respects
the bounds, running the loop on heartbeats whose send time does not lie
in the future keeps every logged latency in `[0, 10)`; moreover a
single heartbeat whose latency reaches the 10-unit ceiling leaves the
log unchanged while the heartbeat counter still increments. -/
theorem claim5_latency_samples (s0 : CoordinatorState) (trace : List Heartbeat)
    (h0 : ∀ x ∈ s0.latency_log, 0 ≤ x ∧ x < 10)
    (hsend : ∀ hb ∈ trace, hb.sent_time ≤ hb.recv_time) :
    (∀ x ∈ (runTrace s0 trace).latency_log, 0 ≤ x ∧ x < 10) ∧
    (∀ node_id score sent_time now, 10 ≤ now - sent_time →
      (processHeartbeat s0 node_id score sent_time now).latency_log = s0.latency_log ∧
      (processHeartbeat s0 node_id score sent_time now).total_heartbeats =
        s0.total_heartbeats + 1) := by
  constructor
  · induction trace generalizing s0 with
    | nil => exact h0
    | cons hb rest ih =>
      have hstep : ∀ x ∈ (processHeartbeat s0 hb.node_id hb.score hb.sent_time
          hb.recv_time).latency_log, 0 ≤ x ∧ x < 10 := by
        rw [processHeartbeat_latency_log]
        intro x hx
        by_cases hlat : hb.recv_time - hb.sent_time < 10
        · rw [if_pos hlat] at hx
          rcases List.mem_append.mp hx with hx1 | hx2
          · exact h0 x hx1
          · have hle := hsend hb (List.mem_cons_self hb rest)
            have hxeq : x = hb.recv_time - hb.sent_time := List.mem_singleton.mp hx2
            subst hxeq
            exact ⟨by linarith, hlat⟩
        · rw [if_neg hlat] at hx
          exact h0 x hx
      exact ih _ hstep (fun hb2 h2 => hsend hb2 (List.mem_cons_of_mem hb h2))
  · intro node_id score sent_time now hceil
    refine ⟨?_, processHeartbeat_total_heartbeats s0 node_id score sent_time now⟩
    rw [processHeartbeat_latency_log, if_neg (not_lt.mpr hceil)]

/-- Witness for C5: one in-range heartbeat (latency 1) keeps the log
within bounds, and the single-step part applies to the spec's Scenario
D heartbeat sent 15 time-units in the past. -/
theorem claim5_witness :
    (∀ x ∈ (initCoordinator 2 [] 2).latency_log, 0 ≤ x ∧ x < 10) ∧
    (∀ hb ∈ [(⟨"A", 1, 0, 1⟩ : Heartbeat)], hb.sent_time ≤ hb.recv_time) ∧
    ((∀ x ∈ (runTrace (initCoordinator 2 [] 2) [⟨"A", 1, 0, 1⟩]).latency_log,
        0 ≤ x ∧ x < 10) ∧
     (∀ node_id score sent_time now, 10 ≤ now - sent_time →
       (processHeartbeat (initCoordinator 2 [] 2) node_id score sent_time
           now).latency_log = (initCoordinator 2 [] 2).latency_log ∧
       (processHeartbeat (initCoordinator 2 [] 2) node_id score sent_time
           now).total_heartbeats = (initCoordinator 2 [] 2).total_heartbeats + 1)) :=
  ⟨by decide, by decide,
    claim5_latency_samples (initCoordinator 2 [] 2) [⟨"A", 1, 0, 1⟩]
      (by decide) (by decide)⟩

/-- Counterexample to C6: a coordinator state whose interval list is
the non-empty `[0]` (two assignments recorded at the same timestamp)
makes `report_metrics` divide by `sum([0]) = 0` and raise
ZeroDivisionError instead of reporting the no-data value. -/
theorem claim6_counterexample :
    throughput
        { initCoordinator 2 [] 2 with execution_times := [0], assignments_done := 2 } =
      PyOutcome.zeroDivisionError ∧
    (PyOutcome.zeroDivisionError : PyOutcome (Option ℚ)) ≠ PyOutcome.ok none := by
  constructor
  · norm_num [throughput, initCoordinator]
  · decide

/-- C6 as amended: the throughput line reports the explicit no-data
value exactly when the interval list is empty (in particular when zero
assignments were done); on a non-empty list it always divides by the
sum, raising ZeroDivisionError when that sum is zero and returning
`assignmentsDone / sum` otherwise. -/
theorem claim6_throughput_guard (s : CoordinatorState) :
    (s.execution_times = [] → throughput s = PyOutcome.ok none) ∧
    (s.execution_times ≠ [] → s.execution_times.sum = 0 →
      throughput s = PyOutcome.zeroDivisionError) ∧
    (s.execution_times ≠ [] → s.execution_times.sum ≠ 0 →
      throughput s =
        PyOutcome.ok (some ((s.assignments_done : ℚ) / s.execution_times.sum))) := by
  unfold throughput
  refine ⟨fun h => ?_, fun h hsum => ?_, fun h hsum => ?_⟩
  · simp [h]
  · simp [List.isEmpty_iff, h, hsum]
  · simp [List.isEmpty_iff, h, hsum]

/-- Witness for the amended C6: a fresh coordinator (zero assignments,
empty interval list) reports no data, and a state with interval list
[5] and two assignments reports 2 / 5. -/
theorem claim6_witness :
    throughput (initCoordinator 2 [] 2) = PyOutcome.ok none ∧
    throughput
        { initCoordinator 2 [] 2 with execution_times := [5], assignments_done := 2 } =
      PyOutcome.ok (some (((2 : ℕ) : ℚ) / ([(5 : ℚ)].sum))) :=
  ⟨(claim6_throughput_guard (initCoordinator 2 [] 2)).1 rfl,
   (claim6_throughput_guard
       { initCoordinator 2 [] 2 with execution_times := [5], assignments_done := 2 }).2.2
     (by decide) (by norm_num)⟩

/-! ### Lemmas about the delivery loop's replication counts -/

theorem dictGet_incr_ne (cs : List (NodeId × ℕ)) (t k : NodeId) (hne : t ≠ k) :
    dictGet (cs.map (fun p => if p.1 == t then (p.1, p.2 + 1) else p)) k = dictGet cs k := by
  unfold dictGet
  rw [find?_map_fst_preserving (fun p => if p.1 == t then (p.1, p.2 + 1) else p)
    (fun p => by by_cases hp : (p.1 == t) = true <;> simp [hp]) cs k]
  cases hfind : cs.find? (fun p => p.1 == k) with
  | none => simp
  | some p =>
    have hp1 : p.1 = k := by simpa using List.find?_some hfind
    have hne2 : ¬ (k = t) := fun h => hne h.symm
    simp [hp1, hne2]

theorem dictGet_incr_self (cs : List (NodeId × ℕ)) (t : NodeId) :
    dictGet (cs.map (fun p => if p.1 == t then (p.1, p.2 + 1) else p)) t =
      (dictGet cs t).map (fun c => c + 1) := by
  unfold dictGet
  rw [find?_map_fst_preserving (fun p => if p.1 == t then (p.1, p.2 + 1) else p)
    (fun p => by by_cases hp : (p.1 == t) = true <;> simp [hp]) cs t]
  cases hfind : cs.find? (fun p => p.1 == t) with
  | none => simp
  | some p =>
    have hp1 : p.1 = t := by simpa using List.find?_some hfind
    simp [hp1]

theorem deliver_counts_not_mem (memory : String) (ts : List NodeId)
    (ns : List (NodeId × NodeState)) (cs : List (NodeId × ℕ)) (k : NodeId)
    (hk : k ∉ ts) :
    dictGet (deliver memory ts (ns, cs)).2 k = dictGet cs k := by
  induction ts generalizing ns cs with
  | nil => rfl
  | cons t rest ih =>
    have hne : t ≠ k := fun h => hk (h ▸ List.mem_cons_self t rest)
    have hrest : k ∉ rest := fun h => hk (List.mem_cons_of_mem t h)
    simp only [deliver]
    by_cases hcond : ns.any (fun p => p.1 == t)
    · rw [if_pos hcond, ih _ _ hrest, dictGet_incr_ne cs t k hne]
    · rw [if_neg hcond, ih _ _ hrest]

theorem deliver_counts_mem (memory : String) (ts : List NodeId)
    (ns : List (NodeId × NodeState)) (cs : List (NodeId × ℕ)) (k : NodeId) (c : ℕ)
    (hnodup : ts.Nodup) (hk : k ∈ ts) (hns : hasKey ns k = true)
    (hc : dictGet cs k = some c) :
    dictGet (deliver memory ts (ns, cs)).2 k = some (c + 1) := by
  induction ts generalizing ns cs with
  | nil => cases hk
  | cons t rest ih =>
    rcases List.nodup_cons.mp hnodup with ⟨hnotin, hnodup2⟩
    simp only [deliver]
    rcases List.mem_cons.mp hk with rfl | hk2
    · have hcond : (ns.any fun p => p.1 == k) = true := hns
      rw [if_pos hcond, deliver_counts_not_mem _ _ _ _ _ hnotin,
        dictGet_incr_self cs k, hc]
      rfl
    · have hne : t ≠ k := fun h => hnotin (h ▸ hk2)
      by_cases hcond : (ns.any fun p => p.1 == t) = true
      · rw [if_pos hcond]
        refine ih _ _ hnodup2 hk2 ?_ ?_
        · rw [hasKey_map_fst_preserving
            (fun p => if p.1 == t then (p.1, receive_replication p.2 memory) else p)
            (fun p => by by_cases hp : (p.1 == t) = true <;> simp [hp]) ns k]
          exact hns
        · rw [dictGet_incr_ne cs t k hne]
          exact hc
      · rw [if_neg hcond]
        exact ih _ _ hnodup2 hk2 hns hc

theorem deliver_counts_mono (memory : String) (ts : List NodeId)
    (ns : List (NodeId × NodeState)) (cs : List (NodeId × ℕ)) (k : NodeId) (c : ℕ)
    (hc : dictGet cs k = some c) :
    ∃ c2, dictGet (deliver memory ts (ns, cs)).2 k = some c2 ∧ c ≤ c2 := by
  induction ts generalizing ns cs c with
  | nil => exact ⟨c, hc, Nat.le_refl c⟩
  | cons t rest ih =>
    simp only [deliver]
    by_cases hcond : (ns.any fun p => p.1 == t) = true
    · rw [if_pos hcond]
      by_cases ht : t = k
      · subst ht
        have h2 : dictGet (cs.map fun p => if p.1 == t then (p.1, p.2 + 1) else p) t =
            some (c + 1) := by
          rw [dictGet_incr_self cs t, hc]
          rfl
        rcases ih _ _ _ h2 with ⟨c2, hc2, hle⟩
        exact ⟨c2, hc2, Nat.le_trans (Nat.le_succ c) hle⟩
      · have h2 : dictGet (cs.map fun p => if p.1 == t then (p.1, p.2 + 1) else p) k =
            some c := by
          rw [dictGet_incr_ne cs t k ht]
          exact hc
        exact ih _ _ _ h2
    · rw [if_neg hcond]
      exact ih _ _ _ hc

theorem assign_replication_count (s : CoordinatorState) (now : Time) :
    (assign_replication_task s now).replication_count =
      (deliver s.memory_state (assignTargets s) (s.node_threads, s.replication_count)).2 :=
  rfl

/-- Claim C7: in one assignment, the replication count of every node
selected in `targets` increases by exactly 1 and the count of every
other node is unchanged (assuming, as holds for every reachable state,
that the targets are distinct and are known node threads); counts are
monotonically non-decreasing in every case. -/
theorem claim7_replication_counts (s : CoordinatorState) (now : Time)
    (hnodup : (assignTargets s).Nodup)
    (hknown : ∀ nid ∈ assignTargets s, hasKey s.node_threads nid = true) :
    (∀ nid c, dictGet s.replication_count nid = some c →
      dictGet (assign_replication_task s now).replication_count nid =
        some (if nid ∈ assignTargets s then c + 1 else c)) ∧
    (∀ nid c, dictGet s.replication_count nid = some c →
      ∃ c2, dictGet (assign_replication_task s now).replication_count nid = some c2 ∧
        c ≤ c2) := by
  constructor
  · intro nid c hc
    rw [assign_replication_count]
    by_cases hmem : nid ∈ assignTargets s
    · rw [if_pos hmem]
      exact deliver_counts_mem _ _ _ _ _ _ hnodup hmem (hknown nid hmem) hc
    · rw [if_neg hmem, deliver_counts_not_mem _ _ _ _ _ hmem]
      exact hc
  · intro nid c hc
    rw [assign_replication_count]
    exact deliver_counts_mono _ _ _ _ _ _ hc

/-- Witness for C7: two known nodes with scores A:1 and B:2 and
replication factor 1, so B alone is targeted: B's count goes from 3 to
4 while A's stays at 0, and both counts are monotone. -/
theorem claim7_witness :
    (let s : CoordinatorState :=
      { initCoordinator 2 [("A", ⟨"A", true, none⟩), ("B", ⟨"B", true, none⟩)] 1 with
        node_scores := [("A", 1), ("B", 2)]
        replication_count := [("A", 0), ("B", 3)] }
    (assignTargets s).Nodup ∧
      (∀ nid ∈ assignTargets s, hasKey s.node_threads nid = true) ∧
      ((∀ nid c, dictGet s.replication_count nid = some c →
          dictGet (assign_replication_task s 5).replication_count nid =
            some (if nid ∈ assignTargets s then c + 1 else c)) ∧
       (∀ nid c, dictGet s.replication_count nid = some c →
         ∃ c2, dictGet (assign_replication_task s 5).replication_count nid = some c2 ∧
           c ≤ c2))) :=
  ⟨by decide, by decide, claim7_replication_counts _ 5 (by decide) (by decide)⟩

/-- Claim C8: `receive_replication` is last-write-wins and idempotent:
one delivery makes `replicated_memory` exactly the payload, re-delivery
of the same payload is a no-op on the whole node state, a delivery
after a different payload still leaves exactly the last payload (no
accumulation), and any k+1 repeated deliveries of one payload end with
exactly that payload. -/
theorem claim8_receive_idempotent (n : NodeState) (memory other : String) (k : ℕ) :
    (receive_replication n memory).replicated_memory = some memory ∧
    receive_replication (receive_replication n memory) memory =
      receive_replication n memory ∧
    (receive_replication (receive_replication n other) memory).replicated_memory =
      some memory ∧
    ((fun st => receive_replication st memory)^[k + 1] n).replicated_memory =
      some memory := by
  refine ⟨rfl, rfl, rfl, ?_⟩
  rw [Function.iterate_succ_apply']
  rfl

/-- Invariant of repeated `assign_replication_task` calls: once the
previous-assignment timestamp is a positive time, every further call
appends exactly one interval, increments the assignment counter, and
keeps the stored timestamp positive. -/
theorem assign_fold_invariant (times : List Time) (s : CoordinatorState) (t0 : Time)
    (hlast : s.last_assignment_time = some t0) (ht0 : 0 < t0)
    (hpos : ∀ t ∈ times, 0 < t) :
    (times.foldl assign_replication_task s).assignments_done =
      s.assignments_done + times.length ∧
    (times.foldl assign_replication_task s).execution_times.length =
      s.execution_times.length + times.length ∧
    ∃ t1, (times.foldl assign_replication_task s).last_assignment_time = some t1 ∧
      0 < t1 := by
  induction times generalizing s t0 with
  | nil => exact ⟨rfl, rfl, t0, hlast, ht0⟩
  | cons t rest ih =>
    have htpos : 0 < t := hpos t (List.mem_cons_self t rest)
    have htruthy : pyTruthy s.last_assignment_time = true := by
      rw [hlast]
      simpa [pyTruthy] using ne_of_gt ht0
    have hexec : (assign_replication_task s t).execution_times.length =
        s.execution_times.length + 1 := by
      rw [assign_execution_times, if_pos htruthy]
      simp
    rcases ih (assign_replication_task s t) t (assign_last_time s t) htpos
        (fun x hx => hpos x (List.mem_cons_of_mem t hx)) with ⟨h1, h2, h3⟩
    rw [List.foldl_cons]
    refine ⟨?_, ?_, h3⟩
    · rw [h1, assign_assignments_done]
      simp [Nat.add_assoc, Nat.add_comm 1]
    · rw [h2, hexec]
      simp [Nat.add_assoc, Nat.add_comm 1]

/-- Claim C10: starting from a fresh coordinator, k ≥ 1 calls to
`assign_replication_task` at positive wall-clock times leave
`assignments_done = k` and exactly `k - 1` recorded inter-assignment
intervals; the previous-assignment timestamp is set on every call, an
interval (`now` minus the previous timestamp) is appended exactly when
a positive previous timestamp exists, and no interval is appended when
none exists. -/
theorem claim10_assignment_cadence (num_nodes replication_factor : ℕ)
    (node_threads : List (NodeId × NodeState)) (times : List Time)
    (hne : times ≠ []) (hpos : ∀ t ∈ times, 0 < t) :
    ((times.foldl assign_replication_task
        (initCoordinator num_nodes node_threads replication_factor)).assignments_done =
      times.length ∧
     (times.foldl assign_replication_task
        (initCoordinator num_nodes node_threads
          replication_factor)).execution_times.length = times.length - 1) ∧
    (∀ s now, (assign_replication_task s now).last_assignment_time = some now) ∧
    (∀ s now t, s.last_assignment_time = some t → 0 < t →
      (assign_replication_task s now).execution_times = s.execution_times ++ [now - t]) ∧
    (∀ s now, s.last_assignment_time = none →
      (assign_replication_task s now).execution_times = s.execution_times) := by
  refine ⟨?_, fun s now => assign_last_time s now, ?_, ?_⟩
  · cases times with
    | nil => cases hne rfl
    | cons t rest =>
      have htpos : 0 < t := hpos t (List.mem_cons_self t rest)
      have hfirst : (assign_replication_task
          (initCoordinator num_nodes node_threads replication_factor) t).execution_times =
          (initCoordinator num_nodes node_threads replication_factor).execution_times := by
        rw [assign_execution_times]
        rfl
      rw [List.foldl_cons]
      rcases assign_fold_invariant rest _ t (assign_last_time _ t) htpos
          (fun x hx => hpos x (List.mem_cons_of_mem t hx)) with ⟨h1, h2, _⟩
      constructor
      · rw [h1, assign_assignments_done]
        simp [initCoordinator, Nat.add_comm]
      · rw [h2, hfirst]
        simp [initCoordinator]
  · intro s now t hlast ht
    have htruthy : pyTruthy s.last_assignment_time = true := by
      rw [hlast]
      simpa [pyTruthy] using ne_of_gt ht
    rw [assign_execution_times, if_pos htruthy, hlast]
    rfl
  · intro s now hlast
    rw [assign_execution_times, hlast]
    rfl

/-- Witness for C10: two assignment calls at times 1 and 2 from a
fresh coordinator give 2 assignments done and exactly 1 recorded
interval. -/
theorem claim10_witness :
    ([(1 : Time), 2] ≠ []) ∧ (∀ t ∈ [(1 : Time), 2], 0 < t) ∧
    ((([(1 : Time), 2].foldl assign_replication_task
        (initCoordinator 2 [] 2)).assignments_done = 2 ∧
      (([(1 : Time), 2]).foldl assign_replication_task
        (initCoordinator 2 [] 2)).execution_times.length = 2 - 1) ∧
     (∀ s now, (assign_replication_task s now).last_assignment_time = some now) ∧
     (∀ s now t, s.last_assignment_time = some t → 0 < t →
       (assign_replication_task s now).execution_times = s.execution_times ++ [now - t]) ∧
     (∀ s now, s.last_assignment_time = none →
       (assign_replication_task s now).execution_times = s.execution_times)) :=
  ⟨by decide, by decide,
    claim10_assignment_cadence 2 2 [] [(1 : Time), 2] (by decide) (by decide)⟩
